import Mathlib

/-!
A verification development for the Twitter peril/fire crawler pipeline.

The definitions below are a shallow embedding of the repository's Python
sources (`tweet_fire_search.py`, `verify_tweets.py`).  Python strings are
modelled as Lean `String` (with `List Char` used internally where character
scanning is required), Python `int` as `Int` or `Nat`, fallible network
calls as explicit outcome values (`Except`/inductive outcome types), and the
JSON files used for persistence as an explicit `FileState` value threaded
through the store operations.  Each definition carries a comment naming the
source function and lines it embeds.
-/

/-! ## Python string primitives -/

/-- Python's `\s` character class (`str.strip` / `re` whitespace), ASCII part:
space, tab, newline, carriage return, vertical tab, form feed. -/
def pyIsSpace (c : Char) : Bool :=
  c = ' ' || c = '\t' || c = '\n' || c = '\r' || c = '\x0b' || c = '\x0c'

/-- Python's `\d` character class (ASCII digits). -/
def pyIsDigit (c : Char) : Bool :=
  '0' ≤ c && c ≤ '9'

/-- The `[A-Za-z]` character class. -/
def isAsciiAlpha (c : Char) : Bool :=
  ('A' ≤ c && c ≤ 'Z') || ('a' ≤ c && c ≤ 'z')

/-- Python `str.strip()` on a character list: remove leading and trailing
whitespace. -/
def pyStrip (cs : List Char) : List Char :=
  ((cs.dropWhile pyIsSpace).reverse.dropWhile pyIsSpace).reverse

/-- Python `str.strip()` on a string. -/
def pyStripStr (s : String) : String :=
  ⟨pyStrip s.data⟩

/-- Python `str.lower()` (ASCII case fold, which is all the pipeline's
comparisons need). -/
def pyLower (s : String) : String :=
  ⟨s.data.map Char.toLower⟩

/-- Worker for `squeezeWs`: `inRun` records whether the previous character was
whitespace (in which case further whitespace is dropped rather than emitted). -/
def squeezeWsAux : Bool → List Char → List Char
  | _, [] => []
  | inRun, c :: cs =>
    if pyIsSpace c then
      if inRun then squeezeWsAux true cs else ' ' :: squeezeWsAux true cs
    else c :: squeezeWsAux false cs

/-- Python `re.sub(r'\s+', ' ', s)`: every maximal whitespace run becomes a
single space. -/
def squeezeWs (cs : List Char) : List Char :=
  squeezeWsAux false cs

/-- Python `int(s)` on a nonempty ASCII digit string. -/
def digitsToInt (ds : List Char) : Int :=
  ds.foldl (fun acc c => 10 * acc + ((c.toNat : Int) - 48)) 0

/-! ## Search side: `tweet_fire_search.py`

Candidates returned by the search collaborator.  The dedup key is the `id`
field, which may be missing from the raw JSON object (`tweet.get('id')`
returns `None`), hence `Option String`. -/

structure Tweet where
  id : Option String
  body : String
  deriving DecidableEq, Repr

/-- Python truthiness of `tweet.get('id')`: `None` and the empty string are
falsy, any other string is truthy. -/
def idTruthy : Option String → Bool
  | none => false
  | some s => s ≠ ""

/-- The loop body of `deduplicate_tweets` (tweet_fire_search.py lines
177-188), with the `seen_ids` set made an explicit parameter so that the
same loop can be run with a seen-set shared across batches.  Returns the
kept tweets together with the final seen-set. -/
def deduplicate_tweets_loop (seen : List String) : List Tweet → List Tweet × List String
  | [] => ([], seen)
  | t :: ts =>
    match t.id with
    | none => deduplicate_tweets_loop seen ts
    | some s =>
      if s ≠ "" ∧ s ∉ seen then
        let rec_result := deduplicate_tweets_loop (s :: seen) ts
        (t :: rec_result.1, rec_result.2)
      else
        deduplicate_tweets_loop seen ts

/-- `deduplicate_tweets` (tweet_fire_search.py lines 177-188): the source
function starts from a fresh empty `seen_ids` set. -/
def deduplicate_tweets (tweets : List Tweet) : List Tweet :=
  (deduplicate_tweets_loop [] tweets).1

/-- The deduplicator driven over a sequence of candidate batches with one
shared seen-set (the contract of the spec's filter_novel): each batch is run
through the `deduplicate_tweets` loop starting from the seen-set left by the
previous batch.  Returns the filtered batches and the final seen-set. -/
def filterBatches (seen : List String) : List (List Tweet) → List (List Tweet) × List String
  | [] => ([], seen)
  | b :: bs =>
    let r := deduplicate_tweets_loop seen b
    let rest := filterBatches r.2 bs
    (r.1 :: rest.1, rest.2)

/-- State of a JSON file on disk: missing, present but unparseable, or
present with a parsed list of records. -/
inductive FileState (α : Type) where
  | absent
  | corrupt
  | stored (data : List α)
  deriving DecidableEq, Repr

/-- `save_tweets_to_file` (tweet_fire_search.py lines 190-211): load the
existing list (empty when the file is absent, and also when `json.load`
fails, because the `except (json.JSONDecodeError, FileNotFoundError)` arm
resets it to `[]`), concatenate the new tweets, deduplicate by id, rewrite
the whole file. -/
def save_tweets_to_file (tweets : List Tweet) (fs : FileState Tweet) : FileState Tweet :=
  let existing_tweets : List Tweet :=
    match fs with
    | .stored d => d
    | .absent => []
    | .corrupt => []
  let all_tweets := existing_tweets ++ tweets
  .stored (deduplicate_tweets all_tweets)

/-- Outcome of one `requests.get` call: a transport exception, or a response
with a status code and the (already JSON-decoded) tweet list of its body. -/
inductive FetchOutcome where
  | exn
  | resp (status : Nat) (tweets : List Tweet)
  deriving DecidableEq, Repr

/-- `handle_rate_limit` (tweet_fire_search.py lines 108-112), modelled as the
number of seconds slept: 60 when the response status is 429, else 0. -/
def handle_rate_limit (status : Nat) : Nat :=
  if status = 429 then 60 else 0

/-- `fetch_tweets` (tweet_fire_search.py lines 114-143).  `att1` is the
outcome of the first `requests.get`; `att2` of the retry issued only after a
429.  Returns the tweets produced for the query together with the total time
slept in rate-limit cooldowns.  Any exception is caught by the function's
`try`/`except` and yields an empty list. -/
def fetch_tweets (att1 att2 : FetchOutcome) (max_results : Nat) : List Tweet × Nat :=
  match att1 with
  | .exn => ([], 0)
  | .resp status tweets =>
    if status = 429 then
      let slept := handle_rate_limit status
      match att2 with
      | .exn => ([], slept)
      | .resp status2 tweets2 =>
        if status2 = 200 then (tweets2.take max_results, slept)
        else ([], slept)
    else if status = 200 then (tweets.take max_results, 0)
    else ([], 0)

/-- The query loop of `main` (tweet_fire_search.py lines 228-241): every
query is fetched in turn; no outcome of one query aborts the loop, so the
run produces exactly one (possibly empty) result list per query. -/
def runQueries (outcomes : List (FetchOutcome × FetchOutcome)) : List (List Tweet) :=
  outcomes.map fun p => (fetch_tweets p.1 p.2 20).1

/-! ## Classifier side: `verify_tweets.py`

The two OpenAI calls are modelled as oracles of type `Except Unit String`:
either the call raised (any exception) or it returned a completion string.
The response parsing uses three `re.search` patterns; each is embedded below
as a direct left-to-right scan with the same leftmost-match, greedy
semantics as the Python regex engine on these particular patterns. -/

/-- The three-character sentinel string `N/A`. -/
def naChars : List Char := ['N', '/', 'A']

/-- Python `state.split(sep)` for the fixed separator `County`: split on every
non-overlapping occurrence, left to right. -/
def countySplit : List Char → List (List Char)
  | 'C' :: 'o' :: 'u' :: 'n' :: 't' :: 'y' :: rest => [] :: countySplit rest
  | c :: rest =>
    match countySplit rest with
    | [] => [[c]]
    | chunk :: more => (c :: chunk) :: more
  | [] => [[]]

/-- Python `sep in state` for the fixed needle `County`. -/
def containsCounty : List Char → Bool
  | 'C' :: 'o' :: 'u' :: 'n' :: 't' :: 'y' :: _ => true
  | _ :: rest => containsCounty rest
  | [] => false

/-- `re.search` of pattern `Score:` `\s*` `(\d+)` (verify_tweets.py line 71),
returning the captured digit run.  At the leftmost occurrence of the literal
`Score:`, the engine skips the maximal whitespace run and then needs at
least one digit; since whitespace and digits are disjoint classes,
backtracking into the whitespace run can never produce a digit, so on
failure the scan resumes after the literal (the literal has no self-overlap,
so no new occurrence can begin inside it). -/
def searchScore : List Char → Option (List Char)
  | 'S' :: 'c' :: 'o' :: 'r' :: 'e' :: ':' :: rest =>
    let ds := (rest.dropWhile pyIsSpace).takeWhile pyIsDigit
    if ds ≠ [] then some ds else searchScore rest
  | _ :: rest => searchScore rest
  | [] => none

/-- `re.search` of pattern `State:` `\s*` `([A-Za-z\s]+|N/A)` (verify_tweets.py
line 72).  After the literal the engine takes the maximal whitespace run `w`;
if the next character is in `[A-Za-z\s]` the capture is the maximal class
run from there; otherwise (the class run is empty) the greedy `\s*`
backtracks one character, and since whitespace is inside the class the
capture becomes exactly the last whitespace character of `w`.  The `N/A`
alternative is unreachable: its first character `N` is a letter, so wherever
it could match the first alternative already matched. -/
def searchState : List Char → Option (List Char)
  | 'S' :: 't' :: 'a' :: 't' :: 'e' :: ':' :: rest =>
    let w := rest.takeWhile pyIsSpace
    let r := rest.dropWhile pyIsSpace
    let cls := r.takeWhile (fun c => isAsciiAlpha c || pyIsSpace c)
    if cls ≠ [] then some cls
    else
      match w.reverse with
      | last :: _ => some [last]
      | [] => searchState rest
  | _ :: rest => searchState rest
  | [] => none

/-- `re.search` of pattern `County:` `\s*` `([^\n]+)` (verify_tweets.py line
73).  After the literal the engine skips the maximal whitespace run; if any
character remains it is non-whitespace (hence not a newline) and the capture
is the maximal newline-free run from there.  At end of input the greedy
`\s*` backtracks to the last non-newline whitespace character, whose capture
is that single character (everything after it is newlines). -/
def searchCounty : List Char → Option (List Char)
  | 'C' :: 'o' :: 'u' :: 'n' :: 't' :: 'y' :: ':' :: rest =>
    let w := rest.takeWhile pyIsSpace
    let r := rest.dropWhile pyIsSpace
    if r ≠ [] then some (r.takeWhile (fun c => c ≠ '\n'))
    else
      match w.reverse.dropWhile (fun c => c = '\n') with
      | last :: _ => some [last]
      | [] => searchCounty rest
  | _ :: rest => searchCounty rest
  | [] => none

/-- The fixed list of recognized US states (verify_tweets.py lines 101-110). -/
def valid_states : List String :=
  ["Alabama", "Alaska", "Arizona", "Arkansas", "California", "Colorado", "Connecticut",
   "Delaware", "Florida", "Georgia", "Hawaii", "Idaho", "Illinois", "Indiana", "Iowa",
   "Kansas", "Kentucky", "Louisiana", "Maine", "Maryland", "Massachusetts", "Michigan",
   "Minnesota", "Mississippi", "Missouri", "Montana", "Nebraska", "Nevada", "New Hampshire",
   "New Jersey", "New Mexico", "New York", "North Carolina", "North Dakota", "Ohio",
   "Oklahoma", "Oregon", "Pennsylvania", "Rhode Island", "South Carolina", "South Dakota",
   "Tennessee", "Texas", "Utah", "Vermont", "Virginia", "Washington", "West Virginia",
   "Wisconsin", "Wyoming"]

/-- The cleanup and repair block of `get_fire_analysis` (verify_tweets.py
lines 79-115), applied to the two captured (or defaulted) fields: collapse
whitespace and strip; if the state field contains `County` and the portion
before the first `County` is nonblank, replace the state by that portion;
then, if the county is `N/A` and the (already repaired) state still contains
`County`, reassign the county from the split of the state; finally downgrade
any state not in `valid_states` to `N/A`. -/
def fixStateCounty (state0 county0 : List Char) : List Char × List Char :=
  let state1 := pyStrip (squeezeWs state0)
  let county1 := pyStrip (squeezeWs county0)
  let state2 :=
    if containsCounty state1 ∧ state1 ≠ naChars then
      let state_parts := countySplit state1
      if pyStrip state_parts.headI ≠ [] then pyStrip state_parts.headI else state1
    else state1
  let county2 :=
    if county1 = naChars ∧ containsCounty state2 ∧ state2 ≠ naChars then
      let county_parts := countySplit state2
      if county_parts.length > 1 ∧ pyStrip (county_parts.getD 1 []) ≠ [] then
        pyStrip (county_parts.getD 1 [])
      else if county_parts.length > 0 then pyStrip county_parts.headI
      else county1
    else county1
  let state3 :=
    if (⟨state2⟩ : String) ∉ valid_states ∧ state2 ≠ naChars then naChars else state2
  (state3, county2)

/-- The response-parsing part of `get_fire_analysis` (verify_tweets.py lines
68-117) on the stripped completion text: run the three searches (missing
score defaults to 0, missing state or county defaults to `N/A`), convert the
digit capture with `int`, then apply the cleanup and repair block. -/
def parse_fire_analysis (answer : List Char) : Int × List Char × List Char :=
  let score : Int :=
    match searchScore answer with
    | some ds => digitsToInt ds
    | none => 0
  let state :=
    match searchState answer with
    | some s => pyStrip s
    | none => naChars
  let county :=
    match searchCounty answer with
    | some c => pyStrip c
    | none => naChars
  let fixed := fixStateCounty state county
  (score, fixed.1, fixed.2)

/-- `get_fire_analysis` (verify_tweets.py lines 41-120): on any exception the
`except` arm returns `(0, N/A, N/A)`; otherwise the completion is stripped
(line 68) and parsed. -/
def get_fire_analysis (resp : Except Unit String) : Int × String × String :=
  match resp with
  | .error _ => (0, "N/A", "N/A")
  | .ok completion =>
    let p := parse_fire_analysis (pyStrip completion.data)
    (p.1, ⟨p.2.1⟩, ⟨p.2.2⟩)

/-- `verify_fire_incident` (verify_tweets.py lines 127-157): the stage-1
relevance gate returns the stripped completion, and returns the verdict
`no` on any exception. -/
def verify_fire_incident (resp : Except Unit String) : String :=
  match resp with
  | .ok completion => pyStripStr completion
  | .error _ => "no"

/-- The record persisted for a verified tweet (verify_tweets.py lines
586-598). -/
structure Entry where
  tweet_id : String
  title : String
  content : String
  published_date : String
  url : String
  source : String
  fire_related_score : Int
  state : String
  county : String
  verification_result : String
  verified_at : String
  deriving DecidableEq, Repr

/-- `update_live_json` (verify_tweets.py lines 159-183): load the existing
list (empty when the file is absent), and append then rewrite only when no
existing record has the same `tweet_id`.  When the file exists but
`json.load` raises, the surrounding `except` swallows the error and nothing
is written.  The Bool result records whether the record was newly written. -/
def update_live_json (fs : FileState Entry) (entry : Entry) : Bool × FileState Entry :=
  match fs with
  | .corrupt => (false, .corrupt)
  | .absent =>
    let data : List Entry := []
    if entry.tweet_id ∈ data.map (·.tweet_id) then (false, .stored data)
    else (true, .stored (data ++ [entry]))
  | .stored data =>
    if entry.tweet_id ∈ data.map (·.tweet_id) then (false, .stored data)
    else (true, .stored (data ++ [entry]))

/-- The per-tweet body of `verify_and_save_tweets` (verify_tweets.py lines
550-612): skip blank or short texts; run the stage-1 gate; when the lowered
verdict starts with `yes`, run stage-2 extraction; when the score is at
least 5, build the entry that is handed to `update_live_json`.  Returns the
entry created, if any. -/
def verify_tweet_step (tweet_id text url created_at username : String)
    (stage1 stage2 : Except Unit String) (now : String) : Option Entry :=
  if pyStripStr text = "" then none
  else if (pyStripStr text).length < 20 then none
  else
    let verification_result := verify_fire_incident stage1
    if "yes".data.isPrefixOf (pyLower verification_result).data then
      let analysis := get_fire_analysis stage2
      let fire_score := analysis.1
      if 5 ≤ fire_score then
        some
          { tweet_id := tweet_id
            title := if text.length > 100 then ⟨text.data.take 100⟩ ++ "..." else text
            content := text
            published_date := created_at
            url := url
            source := username
            fire_related_score := fire_score
            state := analysis.2.1
            county := analysis.2.2
            verification_result := verification_result
            verified_at := now }
      else none
    else none

/-! ## Concurrent appends to the live JSON file

`update_live_json` constructs a fresh `threading.Lock()` inside each
invocation (verify_tweets.py line 161), so the `with lock:` block of one
invocation never excludes another invocation: every acquisition is of a
brand-new, free lock.  Consequently any interleaving of the read phase
(`json.load`) and the write phase (`json.dump` of the snapshot plus the new
entry) of two concurrent invocations is a possible execution.  The model
below runs two append invocations against the same destination under an
explicit schedule of their read and write steps. -/

/-- The write phase of one `update_live_json` invocation, given the snapshot
that its read phase loaded: when the id is absent from the snapshot the file
is overwritten with the snapshot plus the entry (discarding anything written
by other invocations in between); otherwise nothing is written. -/
def appendWrite (snapshot : List Entry) (entry : Entry) (file : List Entry) : List Entry :=
  if entry.tweet_id ∈ snapshot.map (·.tweet_id) then file else snapshot ++ [entry]

/-- Joint state of the destination file and the snapshots held by two
in-flight `update_live_json` invocations. -/
structure TwoAppendState where
  file : List Entry
  snap1 : Option (List Entry)
  snap2 : Option (List Entry)
  deriving DecidableEq, Repr

/-- One scheduled step of either invocation: its read phase or its write
phase. -/
inductive ConcAct where
  | read1
  | write1
  | read2
  | write2
  deriving DecidableEq, Repr

/-- Execute one step of the interleaved pair of invocations. -/
def twoAppendStep (e1 e2 : Entry) (s : TwoAppendState) : ConcAct → TwoAppendState
  | .read1 => { s with snap1 := some s.file }
  | .read2 => { s with snap2 := some s.file }
  | .write1 =>
    match s.snap1 with
    | none => s
    | some snap => { s with file := appendWrite snap e1 s.file }
  | .write2 =>
    match s.snap2 with
    | none => s
    | some snap => { s with file := appendWrite snap e2 s.file }

/-- Run two concurrent `update_live_json` invocations (for `e1` and `e2`)
against a shared destination under the given schedule. -/
def runTwoAppends (e1 e2 : Entry) (init : List Entry) (sched : List ConcAct) : TwoAppendState :=
  sched.foldl (twoAppendStep e1 e2) ⟨init, none, none⟩

/-! ## Query-space builder: `generate_search_combinations`

`itertools.permutations(l, r)` enumerates all length-`r` sequences of
distinct positions of `l`, in lexicographic order of the chosen index
sequences.  `selections l` pairs each element of `l` (in order) with the
remaining elements (in order); recursing on the remainder reproduces the
itertools enumeration order exactly. -/

/-- Each element of the list together with the rest of the list (order
preserved). -/
def selections {α : Type} : List α → List (α × List α)
  | [] => []
  | x :: xs => (x, xs) :: (selections xs).map (fun p => (p.1, x :: p.2))

/-- `itertools.permutations(l, r)` as a list of length-`r` lists, in
itertools enumeration order. -/
def itertoolsPermutations {α : Type} : Nat → List α → List (List α)
  | 0, _ => [[]]
  | r + 1, l => (selections l).flatMap (fun p => (itertoolsPermutations r p.2).map (p.1 :: ·))

/-- Python `' '.join(combo)`. -/
def joinKeywords : List String → String
  | [] => ""
  | [k] => k
  | k :: ks => k ++ " " ++ joinKeywords ks

/-- `generate_search_combinations` (tweet_fire_search.py lines 69-88),
parameterized by the location and keyword vocabularies the source reads from
the module constants: all single keywords, then all ordered pairs, then all
ordered triples, each prefixed by each location, in the source's loop
order. -/
def generate_search_combinations (locations keywords : List String) : List String :=
  (locations.flatMap fun state => keywords.map fun keyword => state ++ " " ++ keyword)
    ++ (locations.flatMap fun state =>
        (itertoolsPermutations 2 keywords).map fun combo => state ++ " " ++ joinKeywords combo)
    ++ (locations.flatMap fun state =>
        (itertoolsPermutations 3 keywords).map fun combo => state ++ " " ++ joinKeywords combo)

/-- The location vocabulary `US_STATES` (tweet_fire_search.py lines 39-47). -/
def US_STATES : List String :=
  ["Arizona", "Colorado", "Connecticut", "Delaware", "Florida", "Georgia",
   "Idaho", "Indiana", "Iowa", "Kansas", "Kentucky", "Louisiana", "Maine",
   "Maryland", "Michigan", "Minnesota", "Mississippi", "Montana", "Nebraska",
   "Nevada", "New Hampshire", "New Jersey", "New Mexico", "North Carolina",
   "North Dakota", "Ohio", "Oklahoma", "Oregon", "South Carolina", "Tennessee",
   "Texas", "US Virgin Islands", "Utah", "Vermont", "Virginia", "Washington",
   "West Virginia", "Wisconsin", "Wyoming", "DC"]

/-- The fallback keyword vocabulary of `load_damage_keywords`
(tweet_fire_search.py lines 49-64). -/
def DEFAULT_DAMAGE_KEYWORDS : List String :=
  ["explosion damage", "lightning damage", "flood damage", "freezing damage",
   "tornado damage", "storm damage", "hail damage", "pipe burst damage",
   "structure damage", "water damage", "smoke damage"]

/-- A concrete entry fixture used by closed witness statements. -/
def sampleEntry (id : String) : Entry :=
  { tweet_id := id
    title := "t"
    content := "c"
    published_date := "2025-07-28T17:12:07+00:00"
    url := "https://x.com/s/status/1"
    source := "s"
    fire_related_score := 7
    state := "Texas"
    county := "Travis"
    verification_result := "yes"
    verified_at := "2025-07-29T00:00:00" }

/-- C2: a processed candidate yields a VerificationRecord exactly when its
stripped text reaches the minimum length, the lowered stage-1 verdict starts
with yes, and the stage-2 score is at least 5; in particular a stage-1
verdict of no never yields a record whatever stage 2 returns. -/
theorem verify_acceptance_policy :
    (∀ tweet_id text url created_at username stage1 stage2 now,
      (verify_tweet_step tweet_id text url created_at username stage1 stage2 now).isSome = true ↔
        (20 ≤ (pyStripStr text).length ∧
         "yes".data.isPrefixOf (pyLower (verify_fire_incident stage1)).data = true ∧
         5 ≤ (get_fire_analysis stage2).1)) ∧
    (verify_tweet_step "t1" "A big fire destroyed the mill" "" "" ""
        (.ok "Yes") (.ok "Score: 5\nState: Texas\nCounty: Travis") "").isSome = true ∧
    (verify_tweet_step "t1" "A big fire destroyed the mill" "" "" ""
        (.ok "Yes") (.ok "Score: 4\nState: Texas\nCounty: Travis") "") = none ∧
    (∀ stage2,
      verify_tweet_step "t1" "A big fire destroyed the mill" "" "" ""
        (.ok "no") stage2 "" = none) := by
  have H : ∀ tweet_id text url created_at username stage1 stage2 now,
      (verify_tweet_step tweet_id text url created_at username stage1 stage2 now).isSome = true ↔
        (20 ≤ (pyStripStr text).length ∧
         "yes".data.isPrefixOf (pyLower (verify_fire_incident stage1)).data = true ∧
         5 ≤ (get_fire_analysis stage2).1) := by
    intro tweet_id text url created_at username stage1 stage2 now
    simp only [verify_tweet_step]
    by_cases hb : pyStripStr text = ""
    · rw [if_pos hb]
      have hlen : (pyStripStr text).length = 0 := by rw [hb]; rfl
      refine iff_of_false (by simp) ?_
      rintro ⟨hA, -, -⟩
      omega
    · rw [if_neg hb]
      by_cases hs : (pyStripStr text).length < 20
      · rw [if_pos hs]
        refine iff_of_false (by simp) ?_
        rintro ⟨hA, -, -⟩
        omega
      · rw [if_neg hs]
        by_cases hy : "yes".data.isPrefixOf (pyLower (verify_fire_incident stage1)).data = true
        · rw [if_pos hy]
          by_cases hsc : 5 ≤ (get_fire_analysis stage2).1
          · rw [if_pos hsc]
            exact iff_of_true (by simp) ⟨by omega, hy, hsc⟩
          · rw [if_neg hsc]
            exact iff_of_false (by simp) (fun h => hsc h.2.2)
        · rw [if_neg hy]
          exact iff_of_false (by simp) (fun h => hy h.2.1)
  refine ⟨H, by decide, by decide, ?_⟩
  intro stage2
  rcases hres : verify_tweet_step "t1" "A big fire destroyed the mill" "" "" ""
      (.ok "no") stage2 "" with - | e
  · rfl
  · exfalso
    have hs := (H "t1" "A big fire destroyed the mill" "" "" "" (.ok "no") stage2 "").mp
      (by rw [hres]; rfl)
    exact absurd hs.2.1 (by decide)

/-- C3: appending a record whose id is not yet stored returns true and the
store then holds that record exactly once; an immediately repeated append of
the same record returns false and leaves the store unchanged, so the result
sequence of the double append is (true, false); in general any append whose
id is already present returns false and leaves the store unchanged. -/
theorem update_live_json_append_twice (d : List Entry) (e : Entry)
    (h : e.tweet_id ∉ d.map (·.tweet_id)) :
    update_live_json (.stored d) e = (true, .stored (d ++ [e])) ∧
    (d ++ [e]).count e = 1 ∧
    ((d ++ [e]).map (·.tweet_id)).count e.tweet_id = 1 ∧
    update_live_json (.stored (d ++ [e])) e = (false, .stored (d ++ [e])) ∧
    (∀ (d2 : List Entry) (e2 : Entry), e2.tweet_id ∈ d2.map (·.tweet_id) →
      update_live_json (.stored d2) e2 = (false, .stored d2)) := by
  have hnotmem : e ∉ d := fun hmem => h (List.mem_map_of_mem (·.tweet_id) hmem)
  refine ⟨?_, ?_, ?_, ?_, ?_⟩
  · simp only [update_live_json, if_neg h]
  · simp [List.count_append, List.count_eq_zero.2 hnotmem]
  · rw [List.map_append, List.count_append]
    rw [List.count_eq_zero.2 h]
    simp
  · have hmem : e.tweet_id ∈ (d ++ [e]).map (·.tweet_id) := by simp
    simp only [update_live_json, if_pos hmem]
  · intro d2 e2 h2
    simp only [update_live_json, if_pos h2]

/-- C3 witness: the double append on the empty store for a concrete entry. -/
theorem update_live_json_append_twice_witness :
    (sampleEntry "42").tweet_id ∉ ([] : List Entry).map (·.tweet_id) ∧
    update_live_json (.stored []) (sampleEntry "42") =
      (true, .stored ([] ++ [sampleEntry "42"])) := by
  refine ⟨by decide, (update_live_json_append_twice [] (sampleEntry "42") (by decide)).1⟩

/-- C5: a 429 response followed by a 200 retry yields the retry's tweets
truncated to the result cap after a 60 second cooldown; a retry that is
itself rate limited, any other non-success retry status, a transport
exception on either attempt, and any other non-success first status all
yield the empty list; and a run always produces one result per query
whatever the outcomes. -/
theorem fetch_tweets_rate_limit (tw1 tw2 : List Tweet) (m : Nat) (att2 : FetchOutcome)
    (s s2 : Nat) (hs200 : s ≠ 200) (hs429 : s ≠ 429) (hs2 : s2 ≠ 200) :
    handle_rate_limit 429 = 60 ∧
    fetch_tweets (.resp 429 tw1) (.resp 200 tw2) m = (tw2.take m, 60) ∧
    fetch_tweets (.resp 429 tw1) (.resp 429 tw2) m = ([], 60) ∧
    fetch_tweets (.resp 429 tw1) (.resp s2 tw2) m = ([], 60) ∧
    fetch_tweets (.resp 429 tw1) .exn m = ([], 60) ∧
    fetch_tweets (.resp s tw1) att2 m = ([], 0) ∧
    fetch_tweets .exn att2 m = ([], 0) ∧
    (∀ outcomes : List (FetchOutcome × FetchOutcome),
      (runQueries outcomes).length = outcomes.length) := by
  refine ⟨rfl, rfl, rfl, ?_, rfl, ?_, rfl, fun outcomes => List.length_map ..⟩
  · simp [fetch_tweets, handle_rate_limit, hs2]
  · simp only [fetch_tweets, if_neg hs429, if_neg hs200]

/-- C5 witness: the rate-limit behaviour at concrete statuses 500 (first
attempt) and 429 (retry). -/
theorem fetch_tweets_rate_limit_witness :
    (500 ≠ 200 ∧ 500 ≠ 429 ∧ 429 ≠ 200) ∧
    fetch_tweets (.resp 429 []) (.resp 200 [⟨some "1", "b"⟩]) 20 =
      ([⟨some "1", "b"⟩].take 20, 60) :=
  ⟨by decide, (fetch_tweets_rate_limit [] [⟨some "1", "b"⟩] 20 .exn 500 429
    (by decide) (by decide) (by decide)).2.1⟩

/-- C9 counterexample: on a corrupt store, the live-JSON append does not
treat the contents as empty and write the record; the exception handler
skips the write entirely and the store stays corrupt. -/
theorem update_live_json_corrupt_skips :
    update_live_json .corrupt (sampleEntry "x") = (false, .corrupt) ∧
    update_live_json .corrupt (sampleEntry "x") ≠
      (true, .stored [sampleEntry "x"]) := by
  exact ⟨rfl, by decide⟩

/-- C9 amended: an absent file is treated as the empty collection by both
stores and the append proceeds; a corrupt file is treated as empty only by
the search-side store, while the live-JSON store swallows the parse error
and skips the append, leaving the store unchanged. -/
theorem store_absent_or_corrupt :
    (∀ e : Entry, update_live_json .absent e = (true, .stored [e])) ∧
    (∀ ts : List Tweet, save_tweets_to_file ts .absent = .stored (deduplicate_tweets ts)) ∧
    (∀ ts : List Tweet, save_tweets_to_file ts .corrupt = .stored (deduplicate_tweets ts)) ∧
    (∀ e : Entry, update_live_json .corrupt e = (false, .corrupt)) := by
  refine ⟨fun e => ?_, fun ts => rfl, fun ts => rfl, fun e => rfl⟩
  simp [update_live_json]

/-- C10: the lock taken by the live-JSON append is created afresh inside each
invocation, so two concurrent appends of distinct records can both read the
empty store before either writes; under that interleaving the second write
overwrites the first and the final store holds one record instead of two,
while a serialized schedule keeps both. -/
theorem update_live_json_lost_update :
    (runTwoAppends (sampleEntry "a") (sampleEntry "b") []
      [.read1, .read2, .write1, .write2]).file = [sampleEntry "b"] ∧
    (runTwoAppends (sampleEntry "a") (sampleEntry "b") []
      [.read1, .read2, .write1, .write2]).file.length = 1 ∧
    (runTwoAppends (sampleEntry "a") (sampleEntry "b") []
      [.read1, .write1, .read2, .write2]).file =
        [sampleEntry "a", sampleEntry "b"] := by
  refine ⟨by decide, by decide, by decide⟩

/-- Helper for the score bound: every character of a capture produced by the
score search is a digit (the capture is a `takeWhile pyIsDigit` run). -/
theorem searchScore_digits :
    ∀ (cs ds : List Char), searchScore cs = some ds → ∀ c ∈ ds, pyIsDigit c = true := by
  intro cs
  induction cs using searchScore.induct with
  | case1 rest d hne =>
    intro ds h c hc
    simp only [searchScore] at h
    rw [if_pos hne] at h
    injection h with h
    subst h
    exact List.mem_takeWhile_imp hc
  | case2 rest d hne ih =>
    intro ds h c hc
    simp only [searchScore] at h
    rw [if_neg hne] at h
    exact ih ds h c hc
  | case3 head rest hnot ih =>
    intro ds h c hc
    rw [searchScore.eq_def] at h
    split at h
    · rename_i x1 rest1 heq
      injection heq with e1 e2
      exact (hnot rest1 e1 e2).elim
    · rename_i x1 hd2 rest2 hno2 heq
      injection heq with e1 e2
      subst e2
      exact ih ds h c hc
    · rename_i x1 heq
      exact absurd heq (by simp)
  | case4 =>
    intro ds h
    exact absurd h (by simp [searchScore])

/-- Helper for the score bound: Python `int` of a digit string is
nonnegative. -/
theorem digitsToInt_nonneg (ds : List Char) (hd : ∀ c ∈ ds, pyIsDigit c = true) :
    0 ≤ digitsToInt ds := by
  have key : ∀ (l : List Char) (acc : Int), 0 ≤ acc → (∀ c ∈ l, pyIsDigit c = true) →
      0 ≤ l.foldl (fun acc c => 10 * acc + ((c.toNat : Int) - 48)) acc := by
    intro l
    induction l with
    | nil => intro acc ha _; simpa using ha
    | cons c cs ih =>
      intro acc ha hl
      have hc : pyIsDigit c = true := hl c (List.mem_cons_self c cs)
      have h0 : '0' ≤ c := by
        simp only [pyIsDigit, Bool.and_eq_true, decide_eq_true_eq] at hc
        exact hc.1
      have h48 : 48 ≤ (c.toNat : Int) := by
        have hn : (48 : Nat) ≤ c.toNat := h0
        exact_mod_cast hn
      refine ih (10 * acc + ((c.toNat : Int) - 48)) (by omega) ?_
      intro x hx
      exact hl x (List.mem_cons_of_mem c hx)
  exact key ds 0 le_rfl hd

/-- Helper for region validation: the state component of the repair block is
the result of the final downgrade conditional for some intermediate state
value. -/
theorem fixStateCounty_fst (state county : List Char) :
    ∃ s2 : List Char, (fixStateCounty state county).1 =
      if (⟨s2⟩ : String) ∉ valid_states ∧ s2 ≠ naChars then naChars else s2 :=
  ⟨_, rfl⟩

/-- C6: a failed stage-1 call yields the verdict no; a failed stage-2 call
yields the safe default score 0 with unknown region and sub-region; and a
stage-2 completion in which none of the three field patterns matches also
yields the safe default. -/
theorem classifier_fail_closed (completion : String)
    (h1 : searchScore (pyStrip completion.data) = none)
    (h2 : searchState (pyStrip completion.data) = none)
    (h3 : searchCounty (pyStrip completion.data) = none) :
    verify_fire_incident (.error ()) = "no" ∧
    get_fire_analysis (.error ()) = (0, "N/A", "N/A") ∧
    get_fire_analysis (.ok completion) = (0, "N/A", "N/A") := by
  refine ⟨rfl, rfl, ?_⟩
  simp only [get_fire_analysis, parse_fire_analysis, h1, h2, h3]
  rfl

/-- C6 witness: the completely unparseable completion hello. -/
theorem classifier_fail_closed_witness :
    (searchScore (pyStrip ("hello" : String).data) = none ∧
     searchState (pyStrip ("hello" : String).data) = none ∧
     searchCounty (pyStrip ("hello" : String).data) = none) ∧
    get_fire_analysis (.ok "hello") = (0, "N/A", "N/A") :=
  ⟨⟨by decide, by decide, by decide⟩,
   (classifier_fail_closed "hello" (by decide) (by decide) (by decide)).2.2⟩

/-- C7 counterexample: on the contaminated value Arizona County Pima (with
stage-2 county N/A) the region is repaired to Arizona but the sub-region is
not reassigned from the remainder: it stays N/A instead of becoming Pima,
because the reassignment step re-tests the already repaired region for the
marker. -/
theorem region_repair_counterexample :
    get_fire_analysis (.ok "Score: 7\nState: Arizona County Pima\nCounty: N/A") =
      (7, "Arizona", "N/A") ∧
    (get_fire_analysis (.ok "Score: 7\nState: Arizona County Pima\nCounty: N/A")).2.2 ≠
      "Pima" :=
  ⟨by decide, by decide⟩

/-- C7 amended: the stored region is always either a recognized US state or
N/A (unrecognized values are downgraded, never stored raw); a region
contaminated with the County marker is repaired to the portion before the
marker when that portion is nonblank, with the sub-region keeping its
stage-2 value; the sub-region is reassigned from the split only when the
portion before the marker is blank. -/
theorem region_validation_and_repair :
    (∀ state county : List Char,
      (fixStateCounty state county).1 = naChars ∨
      (⟨(fixStateCounty state county).1⟩ : String) ∈ valid_states) ∧
    get_fire_analysis (.ok "Score: 7\nState: Arizona County Pima\nCounty: N/A") =
      (7, "Arizona", "N/A") ∧
    get_fire_analysis (.ok "Score: 7\nState: County Pima\nCounty: N/A") =
      (7, "N/A", "Pima") := by
  refine ⟨?_, by decide, by decide⟩
  intro state county
  obtain ⟨s2, hs2⟩ := fixStateCounty_fst state county
  rw [hs2]
  by_cases h : (⟨s2⟩ : String) ∉ valid_states ∧ s2 ≠ naChars
  · rw [if_pos h]
    exact Or.inl rfl
  · rw [if_neg h]
    rcases not_and_or.mp h with h | h
    · exact Or.inr (not_not.mp h)
    · exact Or.inl (not_not.mp h)

/-- C8 counterexample: a stage-2 completion reporting Score: 11 is parsed to
the score 11, outside the claimed range 0..10, and that score is stored in
the produced record. -/
theorem score_range_counterexample :
    get_fire_analysis (.ok "Score: 11\nState: N/A\nCounty: N/A") = (11, "N/A", "N/A") ∧
    ¬ (get_fire_analysis (.ok "Score: 11\nState: N/A\nCounty: N/A")).1 ≤ 10 ∧
    (verify_tweet_step "t1" "A big fire destroyed the mill" "" "" ""
        (.ok "Yes") (.ok "Score: 11\nState: N/A\nCounty: N/A") "").map
      (·.fire_related_score) = some 11 :=
  ⟨by decide, by decide, by decide⟩

/-- C8 amended: the extracted score is always a nonnegative integer (the
digit capture cannot be negative and the default is 0), but no upper bound
is enforced by the extraction. -/
theorem score_nonneg (resp : Except Unit String) : 0 ≤ (get_fire_analysis resp).1 := by
  cases resp with
  | error e => simp [get_fire_analysis]
  | ok completion =>
    simp only [get_fire_analysis, parse_fire_analysis]
    rcases hs : searchScore (pyStrip completion.data) with - | ds
    · simp
    · simp only
      exact digitsToInt_nonneg ds (searchScore_digits _ ds hs)

/-- Helper for the deduplicator: the loop of `deduplicate_tweets`, run from
an arbitrary initial seen-set, keeps a sublist of its input, keeps only
candidates with truthy identifiers not in the initial seen-set, produces
pairwise distinct identifiers, keeps exactly the first occurrence of each
identifier, records every kept identifier in the final seen-set, and records
every truthy identifier of the input there as well. -/
theorem dedup_loop_spec (ts : List Tweet) : ∀ seen : List String,
    ((deduplicate_tweets_loop seen ts).1.Sublist ts) ∧
    (∀ t ∈ (deduplicate_tweets_loop seen ts).1, ∃ s, t.id = some s ∧ s ≠ "" ∧ s ∉ seen) ∧
    (∀ x, x ∈ (deduplicate_tweets_loop seen ts).2 ↔
      (x ∈ seen ∨ ∃ t ∈ (deduplicate_tweets_loop seen ts).1, t.id = some x)) ∧
    (((deduplicate_tweets_loop seen ts).1.map Tweet.id).Nodup) ∧
    (∀ t ∈ (deduplicate_tweets_loop seen ts).1,
      ts.find? (fun u => u.id == t.id) = some t) ∧
    (∀ t ∈ ts, ∀ s, t.id = some s → s ≠ "" → s ∈ (deduplicate_tweets_loop seen ts).2) := by
  induction ts with
  | nil =>
    intro seen
    simp [deduplicate_tweets_loop]
  | cons t ts ih =>
    intro seen
    rcases ht : t.id with - | s
    · -- id missing: the candidate is dropped
      have hred : deduplicate_tweets_loop seen (t :: ts) = deduplicate_tweets_loop seen ts := by
        simp only [deduplicate_tweets_loop, ht]
      obtain ⟨ih1, ih2, ih3, ih4, ih5, ih6⟩ := ih seen
      rw [hred]
      refine ⟨ih1.cons t, ih2, ih3, ih4, ?_, ?_⟩
      · intro u hu
        obtain ⟨x, hx, -, -⟩ := ih2 u hu
        have hne : (t.id == u.id) = false := by
          rw [ht, hx]
          rfl
        rw [List.find?_cons_of_neg _ (by simp [hne]), ih5 u hu]
      · intro u hu x hx hxne
        rcases List.mem_cons.mp hu with rfl | hu
        · rw [ht] at hx
          exact absurd hx (by simp)
        · exact ih6 u hu x hx hxne
    · by_cases hc : s ≠ "" ∧ s ∉ seen
      · have hred : deduplicate_tweets_loop seen (t :: ts) =
            (t :: (deduplicate_tweets_loop (s :: seen) ts).1,
             (deduplicate_tweets_loop (s :: seen) ts).2) := by
          simp only [deduplicate_tweets_loop, ht, if_pos hc]
        obtain ⟨ih1, ih2, ih3, ih4, ih5, ih6⟩ := ih (s :: seen)
        rw [hred]
        refine ⟨ih1.cons₂ t, ?_, ?_, ?_, ?_, ?_⟩
        · intro u hu
          rcases List.mem_cons.mp hu with rfl | hu
          · exact ⟨s, ht, hc.1, hc.2⟩
          · obtain ⟨x, hx, hxne, hxs⟩ := ih2 u hu
            exact ⟨x, hx, hxne, fun hmem => hxs (List.mem_cons_of_mem _ hmem)⟩
        · intro x
          rw [ih3 x]
          simp only [List.mem_cons]
          constructor
          · rintro ((rfl | hx) | ⟨u, hu, hid⟩)
            · exact Or.inr ⟨t, Or.inl rfl, ht⟩
            · exact Or.inl hx
            · exact Or.inr ⟨u, Or.inr hu, hid⟩
          · rintro (hx | ⟨u, rfl | hu, hid⟩)
            · exact Or.inl (Or.inr hx)
            · rw [ht] at hid
              injection hid with hid
              exact Or.inl (Or.inl hid.symm)
            · exact Or.inr ⟨u, hu, hid⟩
        · rw [List.map_cons, List.nodup_cons]
          refine ⟨?_, ih4⟩
          intro hmem
          obtain ⟨u, hu, hid⟩ := List.mem_map.mp hmem
          obtain ⟨x, hx, -, hxs⟩ := ih2 u hu
          rw [hx] at hid
          rw [ht] at hid
          injection hid with hid
          exact hxs (hid ▸ List.mem_cons_self s seen)
        · intro u hu
          rcases List.mem_cons.mp hu with rfl | hu
          · rw [List.find?_cons_of_pos]
            simp
          · obtain ⟨x, hx, hxne, hxs⟩ := ih2 u hu
            have hne : (t.id == u.id) = false := by
              rw [ht, hx]
              have : s ≠ x := fun h => hxs (h ▸ List.mem_cons_self s seen)
              simp [this]
            rw [List.find?_cons_of_neg _ (by simp [hne])]
            exact ih5 u hu
        · intro u hu x hx hxne
          rcases List.mem_cons.mp hu with rfl | hu
          · rw [ht] at hx
            injection hx with hx
            rw [ih3 x]
            exact Or.inl (hx ▸ List.mem_cons_self x seen)
          · exact ih6 u hu x hx hxne
      · have hred : deduplicate_tweets_loop seen (t :: ts) = deduplicate_tweets_loop seen ts := by
          simp only [deduplicate_tweets_loop, ht, if_neg hc]
        obtain ⟨ih1, ih2, ih3, ih4, ih5, ih6⟩ := ih seen
        rw [hred]
        have hsor : s = "" ∨ s ∈ seen := by
          rcases not_and_or.mp hc with h | h
          · exact Or.inl (not_not.mp h)
          · exact Or.inr (not_not.mp h)
        refine ⟨ih1.cons t, ih2, ih3, ih4, ?_, ?_⟩
        · intro u hu
          obtain ⟨x, hx, hxne, hxs⟩ := ih2 u hu
          have hsx : s ≠ x := by
            rcases hsor with rfl | hs
            · exact fun h => hxne h.symm
            · exact fun h => hxs (h ▸ hs)
          have hne : (t.id == u.id) = false := by
            rw [ht, hx]
            simp [hsx]
          rw [List.find?_cons_of_neg _ (by simp [hne])]
          exact ih5 u hu
        · intro u hu x hx hxne
          rcases List.mem_cons.mp hu with rfl | hu
          · rw [ht] at hx
            injection hx with hx
            rcases hsor with rfl | hs
            · exact absurd hx.symm hxne
            · exact (ih3 x).mpr (Or.inl (hx ▸ hs))
          · exact ih6 u hu x hx hxne

/-- Helper for the deduplicator: the batch-level consequences of the loop
specification, by induction over the batch sequence. -/
theorem filterBatches_spec (batches : List (List Tweet)) : ∀ seen : List String,
    ((filterBatches seen batches).1.flatten.Sublist batches.flatten) ∧
    (∀ t ∈ (filterBatches seen batches).1.flatten,
      ∃ s, t.id = some s ∧ s ≠ "" ∧ s ∉ seen ∧ s ∈ (filterBatches seen batches).2) ∧
    (((filterBatches seen batches).1.flatten.map Tweet.id).Nodup) ∧
    (∀ t ∈ (filterBatches seen batches).1.flatten,
      batches.flatten.find? (fun u => u.id == t.id) = some t) ∧
    (∀ t ∈ batches.flatten, ∀ s, t.id = some s → s ≠ "" →
      s ∈ (filterBatches seen batches).2) ∧
    (∀ x ∈ seen, x ∈ (filterBatches seen batches).2) := by
  induction batches with
  | nil =>
    intro seen
    simp [filterBatches]
  | cons b bs ih =>
    intro seen
    obtain ⟨L1, L2, L3, L4, L5, L6⟩ := dedup_loop_spec b seen
    obtain ⟨I1, I2, I3, I4, I5, I6⟩ := ih (deduplicate_tweets_loop seen b).2
    have hred : filterBatches seen (b :: bs) =
        ((deduplicate_tweets_loop seen b).1 ::
          (filterBatches (deduplicate_tweets_loop seen b).2 bs).1,
         (filterBatches (deduplicate_tweets_loop seen b).2 bs).2) := by
      simp only [filterBatches]
    rw [hred]
    simp only [List.flatten_cons]
    have memse : ∀ u ∈ (deduplicate_tweets_loop seen b).1,
        ∃ s, u.id = some s ∧ s ≠ "" ∧ s ∉ seen ∧ s ∈ (deduplicate_tweets_loop seen b).2 := by
      intro u hu
      obtain ⟨s, hid, hne, hns⟩ := L2 u hu
      exact ⟨s, hid, hne, hns, (L3 s).mpr (Or.inr ⟨u, hu, hid⟩)⟩
    refine ⟨?_, ?_, ?_, ?_, ?_, ?_⟩
    · exact List.Sublist.append L1 I1
    · intro t ht
      rcases List.mem_append.mp ht with ht | ht
      · obtain ⟨s, hid, hne, hns, hmem⟩ := memse t ht
        exact ⟨s, hid, hne, hns, I6 s hmem⟩
      · obtain ⟨s, hid, hne, hns1, hmem⟩ := I2 t ht
        refine ⟨s, hid, hne, fun hs => hns1 ((L3 s).mpr (Or.inl hs)), hmem⟩
    · rw [List.map_append]
      refine List.Nodup.append L4 I3 ?_
      intro a ha hb
      obtain ⟨u, hu, hua⟩ := List.mem_map.mp ha
      obtain ⟨v, hv, hva⟩ := List.mem_map.mp hb
      obtain ⟨s, hid, -, -, hmem⟩ := memse u hu
      obtain ⟨x, hidv, -, hnx, -⟩ := I2 v hv
      have heq : some s = some x := by
        rw [← hid, hua, ← hva]
        exact hidv
      injection heq with heq
      exact hnx (heq ▸ hmem)
    · intro t ht
      rcases List.mem_append.mp ht with ht | ht
      · rw [List.find?_append, L5 t ht]
        rfl
      · obtain ⟨x, hidt, hne, hnx, -⟩ := I2 t ht
        have hb : (b.find? fun u => u.id == t.id) = none := by
          rw [List.find?_eq_none]
          intro u hu hbeq
          have : u.id = t.id := by
            have := beq_iff_eq.mp hbeq
            exact this
          rw [hidt] at this
          exact hnx (L6 u hu x this hne)
        rw [List.find?_append, hb, Option.none_or]
        exact I4 t ht
    · intro t ht s hid hne
      rcases List.mem_append.mp ht with ht | ht
      · exact I6 s (L6 t ht s hid hne)
      · exact I5 t ht s hid hne
    · intro x hx
      exact I6 x ((L3 x).mpr (Or.inl hx))

/-- C4: feeding a sequence of batches through the deduplicator with a shared
seen-set (of which the source `deduplicate_tweets` is the single-batch
instance) yields outputs whose identifiers are pairwise distinct, in an
order that is a sublist of the input stream, with every kept candidate
carrying a truthy identifier that is recorded in the seen-set, and every
kept candidate being the first element of the whole input stream bearing its
identifier (so duplicates within one batch collapse to the first
occurrence and candidates lacking an identifier are dropped). -/
theorem deduplicator_batches :
    (∀ tweets : List Tweet, deduplicate_tweets tweets = (filterBatches [] [tweets]).1.flatten) ∧
    (∀ batches : List (List Tweet),
      (((filterBatches [] batches).1.flatten.map Tweet.id).Nodup) ∧
      ((filterBatches [] batches).1.flatten.Sublist batches.flatten) ∧
      (∀ t ∈ (filterBatches [] batches).1.flatten,
        ∃ s, t.id = some s ∧ s ≠ "" ∧ s ∈ (filterBatches [] batches).2) ∧
      (∀ t ∈ (filterBatches [] batches).1.flatten,
        batches.flatten.find? (fun u => u.id == t.id) = some t)) := by
  constructor
  · intro tweets
    simp [deduplicate_tweets, filterBatches]
  · intro batches
    obtain ⟨h1, h2, h3, h4, h5, h6⟩ := filterBatches_spec batches []
    refine ⟨h3, h1, ?_, h4⟩
    intro t ht
    obtain ⟨s, hid, hne, -, hmem⟩ := h2 t ht
    exact ⟨s, hid, hne, hmem⟩

/-- Helper for the query-space builder: the picked elements of `selections`
are the list itself, in order. -/
theorem selections_fst_map {α : Type} (l : List α) :
    (selections l).map Prod.fst = l := by
  induction l with
  | nil => rfl
  | cons x xs ih =>
    simp only [selections, List.map_cons, List.map_map]
    have hcomp : (Prod.fst ∘ fun p : α × List α => (p.1, x :: p.2)) = Prod.fst := rfl
    rw [hcomp, ih]

/-- Helper: each remainder produced by `selections` is one element shorter
than the input. -/
theorem selections_snd_length {α : Type} (l : List α) :
    ∀ p ∈ selections l, p.2.length + 1 = l.length := by
  induction l with
  | nil => intro p hp; simp [selections] at hp
  | cons x xs ih =>
    intro p hp
    simp only [selections, List.mem_cons] at hp
    rcases hp with rfl | hp
    · simp
    · obtain ⟨q, hq, rfl⟩ := List.mem_map.mp hp
      have := ih q hq
      simp only [List.length_cons]
      omega

/-- Helper: each remainder produced by `selections` is a sublist of the
input. -/
theorem selections_snd_sublist {α : Type} (l : List α) :
    ∀ p ∈ selections l, p.2.Sublist l := by
  induction l with
  | nil => intro p hp; simp [selections] at hp
  | cons x xs ih =>
    intro p hp
    simp only [selections, List.mem_cons] at hp
    rcases hp with rfl | hp
    · exact (List.sublist_cons_self x xs)
    · obtain ⟨q, hq, rfl⟩ := List.mem_map.mp hp
      exact (ih q hq).cons₂ x

/-- Helper: a `flatMap` whose pieces all have length `k` has length
`|l| * k`. -/
theorem flatMap_length_const {β γ : Type} (l : List β) (f : β → List γ) (k : Nat)
    (h : ∀ x ∈ l, (f x).length = k) : (l.flatMap f).length = l.length * k := by
  induction l with
  | nil => simp
  | cons x xs ih =>
    simp only [List.flatMap_cons, List.length_append, List.length_cons]
    rw [h x (List.mem_cons_self x xs), ih (fun y hy => h y (List.mem_cons_of_mem x hy))]
    ring

/-- Helper: `itertools.permutations(l, r)` has exactly `P(|l|, r)` elements
(the falling factorial, 0 when `r` exceeds the length). -/
theorem itertoolsPermutations_length {α : Type} :
    ∀ (r : Nat) (l : List α),
      (itertoolsPermutations r l).length = l.length.descFactorial r := by
  intro r
  induction r with
  | zero => intro l; simp [itertoolsPermutations]
  | succ r ih =>
    intro l
    simp only [itertoolsPermutations]
    rw [flatMap_length_const _ _ ((l.length - 1).descFactorial r) ?_]
    · have hsel : (selections l).length = l.length := by
        have hc := congrArg List.length (selections_fst_map l)
        simpa using hc
      rw [hsel]
      cases l with
      | nil => simp
      | cons x xs =>
        simp only [List.length_cons, Nat.add_sub_cancel]
        rw [Nat.succ_descFactorial_succ]
    · intro p hp
      rw [List.length_map, ih p.2]
      rw [← selections_snd_length l p hp]
      simp

/-- Helper: every emitted permutation has length `r` and draws its elements
from the input. -/
theorem itertoolsPermutations_mem {α : Type} :
    ∀ (r : Nat) (l : List α) (c : List α), c ∈ itertoolsPermutations r l →
      c.length = r ∧ ∀ x ∈ c, x ∈ l := by
  intro r
  induction r with
  | zero =>
    intro l c hc
    simp only [itertoolsPermutations, List.mem_singleton] at hc
    subst hc
    simp
  | succ r ih =>
    intro l c hc
    simp only [itertoolsPermutations, List.mem_flatMap, List.mem_map] at hc
    obtain ⟨p, hp, a, ha, rfl⟩ := hc
    obtain ⟨hlen, hmem⟩ := ih p.2 a ha
    have hp1 : p.1 ∈ l := by
      have hm := List.mem_map_of_mem Prod.fst hp
      rw [selections_fst_map l] at hm
      exact hm
    have hsub := selections_snd_sublist l p hp
    refine ⟨by simp [hlen], ?_⟩
    intro x hx
    rcases List.mem_cons.mp hx with rfl | hx
    · exact hp1
    · exact hsub.subset (hmem x hx)

/-- Helper: on an input without duplicates, the emitted permutations are
pairwise distinct as lists. -/
theorem itertoolsPermutations_nodup {α : Type} :
    ∀ (r : Nat) (l : List α), l.Nodup → (itertoolsPermutations r l).Nodup := by
  intro r
  induction r with
  | zero => intro l _; simp [itertoolsPermutations]
  | succ r ih =>
    intro l hl
    simp only [itertoolsPermutations]
    rw [List.nodup_flatMap]
    constructor
    · intro p hp
      refine List.Nodup.map ?_ (ih p.2 ((selections_snd_sublist l p hp).nodup hl))
      intro a b hab
      injection hab
    · have hfst : (selections l).Pairwise (fun p q => p.1 ≠ q.1) := by
        have hnd : ((selections l).map Prod.fst).Nodup := by
          rw [selections_fst_map l]
          exact hl
        exact List.pairwise_map.mp hnd
      refine hfst.imp ?_
      intro p q hpq
      intro c hcp hcq
      obtain ⟨a, ha, rfl⟩ := List.mem_map.mp hcp
      obtain ⟨b, hb, hba⟩ := List.mem_map.mp hcq
      injection hba with h1 h2
      exact hpq h1.symm

/-- Helper: strings with equal character data are equal. -/
theorem str_data_inj {s t : String} (h : s.data = t.data) : s = t := by
  cases s
  cases t
  exact congrArg String.mk h

/-- Helper: character data of `a ++ " " ++ b`. -/
theorem append_space_data (a b : String) :
    (a ++ " " ++ b).data = a.data ++ ' ' :: b.data := by
  simp [String.data_append]

/-- Helper: splitting at the first space is unambiguous when the left parts
are space-free. -/
theorem append_space_inj :
    ∀ (a b s t : List Char), ' ' ∉ a → ' ' ∉ b →
      a ++ ' ' :: s = b ++ ' ' :: t → a = b ∧ s = t := by
  intro a
  induction a with
  | nil =>
    intro b s t ha hb h
    cases b with
    | nil =>
      simp only [List.nil_append] at h
      injection h with h1 h2
      exact ⟨rfl, h2⟩
    | cons c bs =>
      simp only [List.nil_append, List.cons_append] at h
      injection h with h1 h2
      have hmem : (' ' : Char) ∈ c :: bs := by
        rw [h1]
        exact List.mem_cons_self c bs
      exact absurd hmem hb
  | cons x xs ih =>
    intro b s t ha hb h
    cases b with
    | nil =>
      simp only [List.cons_append, List.nil_append] at h
      injection h with h1 h2
      have hmem : (' ' : Char) ∈ x :: xs := by
        rw [← h1]
        exact List.mem_cons_self x xs
      exact absurd hmem ha
    | cons y bs =>
      simp only [List.cons_append] at h
      injection h with h1 h2
      subst h1
      obtain ⟨h3, h4⟩ := ih bs s t (fun hm => ha (List.mem_cons_of_mem _ hm))
        (fun hm => hb (List.mem_cons_of_mem _ hm)) h2
      exact ⟨by rw [h3], h4⟩

/-- Helper: the space-join of nonempty lists of space-free keywords is
injective. -/
theorem joinKeywords_inj :
    ∀ (c1 c2 : List String), c1 ≠ [] → c2 ≠ [] →
      (∀ k ∈ c1, ' ' ∉ k.data) → (∀ k ∈ c2, ' ' ∉ k.data) →
      joinKeywords c1 = joinKeywords c2 → c1 = c2 := by
  intro c1
  induction c1 with
  | nil =>
    intro c2 h1
    exact absurd rfl h1
  | cons k ks ih =>
    intro c2 hne1 hne2 hsp1 hsp2 heq
    cases c2 with
    | nil => exact absurd rfl hne2
    | cons k2 ks2 =>
      cases ks with
      | nil =>
        cases ks2 with
        | nil =>
          have e1 : joinKeywords [k] = k := rfl
          have e2 : joinKeywords [k2] = k2 := rfl
          rw [e1, e2] at heq
          rw [heq]
        | cons k2b ks2b =>
          exfalso
          have e1 : joinKeywords [k] = k := rfl
          have e2 : joinKeywords (k2 :: k2b :: ks2b) =
              k2 ++ " " ++ joinKeywords (k2b :: ks2b) := rfl
          rw [e1, e2] at heq
          have hd : k.data = k2.data ++ ' ' :: (joinKeywords (k2b :: ks2b)).data := by
            rw [heq]
            exact append_space_data k2 (joinKeywords (k2b :: ks2b))
          have hmem : (' ' : Char) ∈ k.data := by
            rw [hd]
            exact List.mem_append_right _ (List.mem_cons_self _ _)
          exact hsp1 k (List.mem_cons_self k []) hmem
      | cons kb ksb =>
        cases ks2 with
        | nil =>
          exfalso
          have e1 : joinKeywords (k :: kb :: ksb) =
              k ++ " " ++ joinKeywords (kb :: ksb) := rfl
          have e2 : joinKeywords [k2] = k2 := rfl
          rw [e1, e2] at heq
          have hd : k2.data = k.data ++ ' ' :: (joinKeywords (kb :: ksb)).data := by
            rw [← heq]
            exact append_space_data k (joinKeywords (kb :: ksb))
          have hmem : (' ' : Char) ∈ k2.data := by
            rw [hd]
            exact List.mem_append_right _ (List.mem_cons_self _ _)
          exact hsp2 k2 (List.mem_cons_self k2 []) hmem
        | cons k2b ks2b =>
          have e1 : joinKeywords (k :: kb :: ksb) =
              k ++ " " ++ joinKeywords (kb :: ksb) := rfl
          have e2 : joinKeywords (k2 :: k2b :: ks2b) =
              k2 ++ " " ++ joinKeywords (k2b :: ks2b) := rfl
          rw [e1, e2] at heq
          have hd := congrArg String.data heq
          rw [append_space_data, append_space_data] at hd
          obtain ⟨hk, hj⟩ := append_space_inj _ _ _ _
            (hsp1 k (List.mem_cons_self _ _))
            (hsp2 k2 (List.mem_cons_self _ _)) hd
          have hkk : k = k2 := str_data_inj hk
          have hJ : joinKeywords (kb :: ksb) = joinKeywords (k2b :: ks2b) :=
            str_data_inj hj
          have htail : kb :: ksb = k2b :: ks2b := by
            refine ih (k2b :: ks2b) (List.cons_ne_nil _ _) (List.cons_ne_nil _ _) ?_ ?_ hJ
            · intro x hx
              exact hsp1 x (List.mem_cons_of_mem _ hx)
            · intro x hx
              exact hsp2 x (List.mem_cons_of_mem _ hx)
          rw [hkk, htail]

/-- Helper: a query string determines its location and keyword combination
when all tokens are space-free. -/
theorem query_inj (st1 st2 : String) (c1 c2 : List String)
    (h1 : ' ' ∉ st1.data) (h2 : ' ' ∉ st2.data)
    (hn1 : c1 ≠ []) (hn2 : c2 ≠ [])
    (hs1 : ∀ k ∈ c1, ' ' ∉ k.data) (hs2 : ∀ k ∈ c2, ' ' ∉ k.data)
    (heq : st1 ++ " " ++ joinKeywords c1 = st2 ++ " " ++ joinKeywords c2) :
    st1 = st2 ∧ c1 = c2 := by
  have hd := congrArg String.data heq
  rw [append_space_data, append_space_data] at hd
  obtain ⟨ha, hb⟩ := append_space_inj _ _ _ _ h1 h2 hd
  exact ⟨str_data_inj ha, joinKeywords_inj c1 c2 hn1 hn2 hs1 hs2 (str_data_inj hb)⟩

/-- Helper: one block of the query space (all locations crossed with a fixed
combination list) has no duplicate query strings. -/
theorem queryBlock_nodup (locs : List String) (combos : List (List String))
    (hlnd : locs.Nodup) (hcnd : combos.Nodup)
    (hlsp : ∀ l ∈ locs, ' ' ∉ l.data)
    (hcprop : ∀ c ∈ combos, c ≠ [] ∧ ∀ k ∈ c, ' ' ∉ k.data) :
    (locs.flatMap fun st => combos.map fun c => st ++ " " ++ joinKeywords c).Nodup := by
  rw [List.nodup_flatMap]
  constructor
  · intro st hst
    refine List.Nodup.map_on ?_ hcnd
    intro c1 hc1 c2 hc2 heq
    exact (query_inj st st c1 c2 (hlsp st hst) (hlsp st hst)
      (hcprop c1 hc1).1 (hcprop c2 hc2).1 (hcprop c1 hc1).2 (hcprop c2 hc2).2 heq).2
  · have hpw : locs.Pairwise (· ≠ ·) := hlnd
    refine List.Pairwise.imp_of_mem ?_ hpw
    intro st1 st2 hm1 hm2 hne q hq1 hq2
    obtain ⟨c1, hc1, rfl⟩ := List.mem_map.mp hq1
    obtain ⟨c2, hc2, heq⟩ := List.mem_map.mp hq2
    exact hne (query_inj st2 st1 c2 c1 (hlsp st2 hm2) (hlsp st1 hm1)
      (hcprop c2 hc2).1 (hcprop c1 hc1).1 (hcprop c2 hc2).2 (hcprop c1 hc1).2 heq).1.symm

/-- C1 amended: the builder always emits exactly
`|locations| * (P(n,1) + P(n,2) + P(n,3))` query strings -- the exact count
holds with no side condition (the code fixes the maximum combination length
at 3) -- and is deterministic, being a pure function of its inputs; the
emitted strings are pairwise distinct provided the locations and keywords
are distinct and none contains a space (without the space-free restriction
distinctness can fail, as the counterexample shows). -/
theorem generate_search_combinations_spec :
    (∀ locations keywords : List String,
      (generate_search_combinations locations keywords).length =
        locations.length * (keywords.length.descFactorial 1 +
          keywords.length.descFactorial 2 + keywords.length.descFactorial 3)) ∧
    (∀ locations keywords : List String,
      locations.Nodup → keywords.Nodup →
      (∀ l ∈ locations, ' ' ∉ l.data) →
      (∀ k ∈ keywords, ' ' ∉ k.data) →
      (generate_search_combinations locations keywords).Nodup) := by
  constructor
  · intro locations keywords
    have hb1 : (locations.flatMap fun st => keywords.map fun k => st ++ " " ++ k).length =
        locations.length * keywords.length :=
      flatMap_length_const _ _ _ (fun st hst => List.length_map _ _)
    have hb2 : (locations.flatMap fun st =>
        (itertoolsPermutations 2 keywords).map fun c => st ++ " " ++ joinKeywords c).length =
        locations.length * keywords.length.descFactorial 2 := by
      refine flatMap_length_const _ _ _ (fun st hst => ?_)
      rw [List.length_map, itertoolsPermutations_length]
    have hb3 : (locations.flatMap fun st =>
        (itertoolsPermutations 3 keywords).map fun c => st ++ " " ++ joinKeywords c).length =
        locations.length * keywords.length.descFactorial 3 := by
      refine flatMap_length_const _ _ _ (fun st hst => ?_)
      rw [List.length_map, itertoolsPermutations_length]
    simp only [generate_search_combinations, List.length_append, hb1, hb2, hb3,
      Nat.descFactorial_one]
    ring
  · intro locations keywords hlnd hknd hlsp hksp
    have hB1 : (locations.flatMap fun st => keywords.map fun k => st ++ " " ++ k) =
        locations.flatMap fun st =>
          (keywords.map fun k => [k]).map fun c => st ++ " " ++ joinKeywords c := by
      simp only [List.map_map]
      rfl
    have hprop1 : ∀ c ∈ keywords.map fun k => [k],
        c.length = 1 ∧ (c ≠ [] ∧ ∀ k ∈ c, ' ' ∉ k.data) := by
      intro c hc
      obtain ⟨k, hk, rfl⟩ := List.mem_map.mp hc
      refine ⟨rfl, by simp, ?_⟩
      intro x hx
      rw [List.mem_singleton.mp hx]
      exact hksp k hk
    have hprop2 : ∀ r, ∀ c ∈ itertoolsPermutations (r + 1) keywords,
        c.length = r + 1 ∧ (c ≠ [] ∧ ∀ k ∈ c, ' ' ∉ k.data) := by
      intro r c hc
      obtain ⟨hlen, hmem⟩ := itertoolsPermutations_mem (r + 1) keywords c hc
      refine ⟨hlen, ?_, fun k hk => hksp k (hmem k hk)⟩
      intro hnil
      rw [hnil] at hlen
      simp at hlen
    have hdisj : ∀ (cA cB : List (List String)) (ra rb : Nat), ra ≠ rb →
        (∀ c ∈ cA, c.length = ra ∧ (c ≠ [] ∧ ∀ k ∈ c, ' ' ∉ k.data)) →
        (∀ c ∈ cB, c.length = rb ∧ (c ≠ [] ∧ ∀ k ∈ c, ' ' ∉ k.data)) →
        List.Disjoint
          (locations.flatMap fun st => cA.map fun c => st ++ " " ++ joinKeywords c)
          (locations.flatMap fun st => cB.map fun c => st ++ " " ++ joinKeywords c) := by
      intro cA cB ra rb hne hA hB q hqa hqb
      rw [List.mem_flatMap] at hqa hqb
      obtain ⟨st1, hst1, hq1⟩ := hqa
      obtain ⟨st2, hst2, hq2⟩ := hqb
      obtain ⟨c1, hc1, rfl⟩ := List.mem_map.mp hq1
      obtain ⟨c2, hc2, heq⟩ := List.mem_map.mp hq2
      obtain ⟨-, hcc⟩ := query_inj st2 st1 c2 c1 (hlsp st2 hst2) (hlsp st1 hst1)
        (hB c2 hc2).2.1 (hA c1 hc1).2.1 (hB c2 hc2).2.2 (hA c1 hc1).2.2 heq
      apply hne
      have h1 := (hA c1 hc1).1
      have h2 := (hB c2 hc2).1
      rw [hcc] at h2
      omega
    have hn1 : (locations.flatMap fun st =>
        (keywords.map fun k => [k]).map fun c => st ++ " " ++ joinKeywords c).Nodup := by
      refine queryBlock_nodup locations _ hlnd ?_ hlsp (fun c hc => (hprop1 c hc).2)
      refine List.Nodup.map ?_ hknd
      intro a b hab
      injection hab
    have hn2 : (locations.flatMap fun st =>
        (itertoolsPermutations 2 keywords).map fun c => st ++ " " ++ joinKeywords c).Nodup :=
      queryBlock_nodup locations _ hlnd (itertoolsPermutations_nodup 2 keywords hknd)
        hlsp (fun c hc => (hprop2 1 c hc).2)
    have hn3 : (locations.flatMap fun st =>
        (itertoolsPermutations 3 keywords).map fun c => st ++ " " ++ joinKeywords c).Nodup :=
      queryBlock_nodup locations _ hlnd (itertoolsPermutations_nodup 3 keywords hknd)
        hlsp (fun c hc => (hprop2 2 c hc).2)
    have hd12 := hdisj _ _ 1 2 (by omega) hprop1 (hprop2 1)
    have hd13 := hdisj _ _ 1 3 (by omega) hprop1 (hprop2 2)
    have hd23 := hdisj _ _ 2 3 (by omega) (hprop2 1) (hprop2 2)
    simp only [generate_search_combinations]
    rw [hB1]
    refine List.Nodup.append (List.Nodup.append hn1 hn2 hd12) hn3 ?_
    intro q hq1 hq2
    rcases List.mem_append.mp hq1 with hq1 | hq1
    · exact hd13 hq1 hq2
    · exact hd23 hq1 hq2

/-- C1 counterexample: with the distinct keywords a, b and a b (three
keywords, so the max combination length 3 is allowed), the query X a b is
emitted both as a single-keyword query and as the pair (a, b), so the
emitted strings are not pairwise distinct. -/
theorem query_space_counterexample :
    (["a", "b", "a b"] : List String).Nodup ∧
    ¬ (generate_search_combinations ["X"] ["a", "b", "a b"]).Nodup :=
  ⟨by decide, by decide⟩

/-- C1 witness: two locations and three keywords, all space-free, give
2 * (3 + 6 + 6) = 30 pairwise distinct queries; and the unconditional count
instantiates at the repository's own vocabularies (40 states, 11 default
damage keywords, spaces and all) to 40 * (11 + 110 + 990) = 44440 queries. -/
theorem generate_search_combinations_spec_witness :
    ((["Texas", "Iowa"] : List String).Nodup ∧ (["fire", "flood", "smoke"] : List String).Nodup ∧
     (∀ l ∈ (["Texas", "Iowa"] : List String), ' ' ∉ l.data) ∧
     (∀ k ∈ (["fire", "flood", "smoke"] : List String), ' ' ∉ k.data)) ∧
    (generate_search_combinations ["Texas", "Iowa"] ["fire", "flood", "smoke"]).length =
      2 * (3 + 6 + 6) ∧
    (generate_search_combinations ["Texas", "Iowa"] ["fire", "flood", "smoke"]).Nodup ∧
    (generate_search_combinations US_STATES DEFAULT_DAMAGE_KEYWORDS).length =
      40 * (11 + 110 + 990) := by
  refine ⟨⟨by decide, by decide, by decide, by decide⟩, ?_, ?_, ?_⟩
  · have h := generate_search_combinations_spec.1 ["Texas", "Iowa"] ["fire", "flood", "smoke"]
    simpa using h
  · exact generate_search_combinations_spec.2 ["Texas", "Iowa"] ["fire", "flood", "smoke"]
      (by decide) (by decide) (by decide) (by decide)
  · have h := generate_search_combinations_spec.1 US_STATES DEFAULT_DAMAGE_KEYWORDS
    rw [h]
    decide
